import Mathlib

/-!
Verification development for the `acd_cli` cache query layer
(`src/acdcli/cache/query.py`).

The Python module is shallowly embedded below.  The persistent SQLite
store is modelled as an explicit `Store` value holding the `nodes`,
`parentage`, `files`, `properties` and `content` relations; each SQL
statement of the source file becomes a pure Lean function over `Store`
(filters plus a stable insertion sort mirroring the `ORDER BY` clause).
The two in-memory dictionaries (`node_id_to_node_cache`,
`path_to_node_id_cache`) become association lists, and every operation
of `QueryMixin` becomes a Lean function that threads the cache
explicitly and additionally records the list of SQL statements it
executed, so that read-only-ness and cache-hit behaviour are provable.
Python exceptions (`AttributeError` on `None.id`, `TypeError` on
`'/' + None`, the recursion limit) are modelled with `Except PyErr`.
Locks only serialize concurrent access in the source; the embedding is
the single-threaded semantics, so they are not represented.
-/

namespace Acd

/-- Python exceptions that the embedded operations can raise. -/
inductive PyErr where
  | attributeError
  | typeError
  | recursionError
  deriving Repr, DecidableEq

/-- One tag per SQL statement constant of `query.py`.  `contentAccessed`
is the single UPDATE statement (`CONTENT_ACCESSED_SQL`); its execution
is commented out in the source, every other statement is a SELECT. -/
inductive Stmt where
  | conflictingNode
  | childrenQ
  | parentsQ
  | childrensNames
  | numChildren
  | numParents
  | numNodes
  | numFiles
  | numFolders
  | childOf
  | nodeById
  | propertyById
  | contentById
  | contentAccessed
  | usage
  | findByName
  | findByRegex
  | findByMd5
  | findFirstParent
  | fileSizeExists
  deriving Repr, DecidableEq

/-- Whether a statement writes to the store.  Only the (never executed)
`CONTENT_ACCESSED_SQL` UPDATE is a write. -/
def isWrite : Stmt → Bool
  | .contentAccessed => true
  | _ => false

/-- One row of the `nodes` relation. -/
structure NodeRow where
  id : String
  type : String
  name : String
  description : String
  created : String
  modified : String
  updated : String
  status : String
  deriving Repr, DecidableEq

/-- One row of the `files` relation. -/
structure FileRow where
  id : String
  md5 : Option String
  size : Nat
  version : Nat
  deriving Repr, DecidableEq

/-- One row of the `properties` relation: (id, owner, key, value). -/
structure PropRow where
  id : String
  owner : String
  key : String
  value : String
  deriving Repr, DecidableEq

/-- One row of the `content` relation: (id, version, value bytes). -/
structure ContentRow where
  id : String
  version : Nat
  value : List Nat
  deriving Repr, DecidableEq

/-- The persistent store observed by `QueryMixin`, together with the
configured `root_id` attribute of the mixin. -/
structure Store where
  nodes : List NodeRow
  parentage : List (String × String)
  files : List FileRow
  properties : List PropRow
  content : List ContentRow
  root_id : String
  deriving Repr, DecidableEq

/-- The Python `Node` object: the fields set by `Node.__init__` from a
joined `nodes`/`files` row. -/
structure Node where
  id : String
  type : String
  name : String
  description : String
  cre : String
  mod : String
  updated : String
  status : String
  md5 : Option String
  size : Nat
  version : Nat
  deriving Repr, DecidableEq

/-- `Node.is_folder`. -/
def Node.is_folder (n : Node) : Bool := n.type == "folder"

/-- `Node.is_file`. -/
def Node.is_file (n : Node) : Bool := n.type == "file"

/-- `Node.is_available`. -/
def Node.is_available (n : Node) : Bool := n.status == "AVAILABLE"

/-- `Node.is_trashed`. -/
def Node.is_trashed (n : Node) : Bool := n.status == "TRASH"

/-- `Node.simple_name`: the name, or name + '/' for non-files (the
root's empty name becomes "/"). -/
def Node.simple_name (n : Node) : String :=
  if n.is_file then n.name else n.name ++ "/"

/-- Build a `Node` from a `nodes` row joined with an optional `files`
row.  In the source the `try ... except IndexError` blocks default
`md5`/`size`/`version` when the file columns are absent. -/
def mkNode (r : NodeRow) (f : Option FileRow) : Node :=
  { id := r.id, type := r.type, name := r.name, description := r.description,
    cre := r.created, mod := r.modified, updated := r.updated, status := r.status,
    md5 := f.bind (fun fr => fr.md5),
    size := (f.map (fun fr => fr.size)).getD 0,
    version := (f.map (fun fr => fr.version)).getD 0 }

/-- The `files` row joined to a node id by `LEFT OUTER JOIN files f ON
n.id = f.id`. -/
def fileRowFor (st : Store) (id : String) : Option FileRow :=
  st.files.find? (fun fr => fr.id == id)

/-- Stable insertion into a sorted list: `x` is placed before the first
element that is not strictly below it. -/
def insertLt (lt : α → α → Bool) (x : α) : List α → List α
  | [] => [x]
  | y :: ys => if lt y x then y :: insertLt lt x ys else x :: y :: ys

/-- Stable sort modelling an SQL `ORDER BY` clause. -/
def sortBy (lt : α → α → Bool) : List α → List α
  | [] => []
  | x :: xs => insertLt lt x (sortBy lt xs)

/-- Codepoint-lexicographic comparison of character lists, mirroring
SQLite's BINARY collation (memcmp of the UTF-8 bytes). -/
def charListLt : List Char → List Char → Bool
  | [], [] => false
  | [], _ :: _ => true
  | _ :: _, [] => false
  | a :: as, b :: bs =>
    if a.toNat < b.toNat then true
    else if b.toNat < a.toNat then false
    else charListLt as bs

/-- SQLite BINARY string comparison. -/
def strLt (a b : String) : Bool := charListLt a.data b.data

/-- Comparator for `ORDER BY n.name`. -/
def nameLt (a b : NodeRow) : Bool := strLt a.name b.name

/-- Comparator for `ORDER BY n.status` (SQLite compares the strings, so
"AVAILABLE" sorts before "TRASH"). -/
def statusLt (a b : NodeRow) : Bool := strLt a.status b.status

/-- Comparator for `ORDER BY n.status, n.id`. -/
def statusIdLt (a b : NodeRow) : Bool :=
  strLt a.status b.status || (a.status == b.status && strLt a.id b.id)

/-- `NODE_BY_ID_SQL` (first row): the node row with the given id. -/
def nodeByIdQuery (st : Store) (id : String) : Option NodeRow :=
  st.nodes.find? (fun n => n.id == id)

/-- The `Node` the store yields for an id, if any (row plus file join). -/
def storeNode (st : Store) (id : String) : Option Node :=
  (nodeByIdQuery st id).map (fun r => mkNode r (fileRowFor st r.id))

/-- `CHILD_OF_SQL`: rows named `name` that are children of `pid`,
ordered by status. -/
def childOfQuery (st : Store) (name pid : String) : List NodeRow :=
  sortBy statusLt
    (st.nodes.filter (fun n => n.name == name && st.parentage.contains (pid, n.id)))

/-- `CHILDREN_SQL`: all child rows of `pid`, ordered by name. -/
def childrenQuery (st : Store) (pid : String) : List NodeRow :=
  sortBy nameLt (st.nodes.filter (fun n => st.parentage.contains (pid, n.id)))

/-- `PARENTS_SQL`: all parent rows of `cid`, ordered by name. -/
def parentsQuery (st : Store) (cid : String) : List NodeRow :=
  sortBy nameLt (st.nodes.filter (fun n => st.parentage.contains (n.id, cid)))

/-- `FIND_FIRST_PARENT_SQL`: parent rows of `cid`, ordered by status
then id. -/
def firstParentQuery (st : Store) (cid : String) : List NodeRow :=
  sortBy statusIdLt (st.nodes.filter (fun n => st.parentage.contains (n.id, cid)))

/-- `CONFLICTING_NODE_SQL`: available children of `pid` whose lowered
name equals the (already lowered) parameter, ordered by name. -/
def conflictingNodeQuery (st : Store) (lowered pid : String) : List NodeRow :=
  sortBy nameLt
    (st.nodes.filter (fun n =>
      n.name.toLower == lowered && st.parentage.contains (pid, n.id)
        && n.status == "AVAILABLE"))

/-- The dual in-memory cache of `QueryMixin`: the two dictionaries
`node_id_to_node_cache` and `path_to_node_id_cache`. -/
structure Cache where
  node_id_to_node_cache : List (String × Node)
  path_to_node_id_cache : List (String × String)
  deriving Repr, DecidableEq

/-- Dictionary lookup in an association list. -/
def lookupS (l : List (String × α)) (k : String) : Option α :=
  (l.find? (fun p => p.1 == k)).map (fun p => p.2)

/-- Dictionary assignment `d[k] = v` (overwrites any previous binding). -/
def insertS (l : List (String × α)) (k : String) (v : α) : List (String × α) :=
  (k, v) :: l.filter (fun p => !(p.1 == k))

/-- The empty cache (state at process start). -/
def cacheEmpty : Cache := { node_id_to_node_cache := [], path_to_node_id_cache := [] }

/-- Assignment `node_id_to_node_cache[k] = n`. -/
def setIdCache (c : Cache) (n : Node) : Cache :=
  { c with node_id_to_node_cache := insertS c.node_id_to_node_cache n.id n }

/-- Assignment `path_to_node_id_cache[k] = v`. -/
def setPathCache (c : Cache) (k v : String) : Cache :=
  { c with path_to_node_id_cache := insertS c.path_to_node_id_cache k v }

/-- The final cache installment of `resolve`: `node_id_to_node_cache[r.id] = r`
and `path_to_node_id_cache[path] = r.id`. -/
def insertBoth (c : Cache) (path : String) (n : Node) : Cache :=
  setPathCache (setIdCache c n) path n.id

/-- Drop trailing '/' characters. -/
def dropTrailingSlashes (cs : List Char) : List Char :=
  (cs.reverse.dropWhile (fun ch => ch == '/')).reverse

/-- Characters after the final '/' of a path. -/
def pyTail (p : String) : List Char :=
  (p.data.reverse.takeWhile (fun ch => !(ch == '/'))).reverse

/-- Characters up to and including the final '/' of a path. -/
def pyHeadRaw (p : String) : List Char :=
  p.data.take (p.data.length - (pyTail p).length)

/-- Head of `os.path.split`: trailing slashes are stripped unless the
head is empty or all slashes. -/
def pyHead (p : String) : List Char :=
  if (pyHeadRaw p).isEmpty || (pyHeadRaw p).all (fun ch => ch == '/')
  then pyHeadRaw p else dropTrailingSlashes (pyHeadRaw p)

/-- `os.path.split` for POSIX paths: the head is everything up to the
final '/', with trailing slashes stripped unless the head is all
slashes; the tail is everything after the final '/'. -/
def pySplit (p : String) : String × String := (⟨pyHead p⟩, ⟨pyTail p⟩)

/-- `os.path.join` for two POSIX path components. -/
def pyJoin (a b : String) : String :=
  if b.data.head? == some '/' then b
  else if a == "" then b
  else if a.data.getLast? == some '/' then a ++ b
  else a ++ "/" ++ b

/-- `QueryMixin.get_node`: id-cache lookup, then `NODE_BY_ID_SQL`;
only available nodes are inserted into the id cache.  Returns the
optional node, the updated cache and the executed statements. -/
def get_node (st : Store) (c : Cache) (id : String) :
    Option Node × Cache × List Stmt :=
  match lookupS c.node_id_to_node_cache id with
  | some n => (some n, c, [])
  | none =>
    match storeNode st id with
    | none => (none, c, [Stmt.nodeById])
    | some n =>
      if n.is_available then (some n, setIdCache c n, [Stmt.nodeById])
      else (some n, c, [Stmt.nodeById])

/-- `QueryMixin.get_root_node`. -/
def get_root_node (st : Store) (c : Cache) : Option Node × Cache × List Stmt :=
  get_node st c st.root_id

/-- `QueryMixin.resolve`, fuelled.  Python's recursion limit is
modelled by the fuel; the wrapper `resolve` below always supplies
enough.  Mirrors the source line by line: path-cache probe (a hit
returns `get_node` of the cached id, even when that is `None`), the
root branch (`AttributeError` when `get_root_node` returned `None`),
recursive resolution of the parent path, the two-row `CHILD_OF_SQL`
probe and the trash disambiguation, and the final cache installment. -/
def resolveF : Nat → Store → Cache → String → Bool →
    Except PyErr (Option Node) × Cache × List Stmt
  | 0, _, c, _, _ => (.error .recursionError, c, [])
  | fuel + 1, st, c, path, trash =>
    match lookupS c.path_to_node_id_cache path with
    | some nid =>
      match get_node st c nid with
      | (r, c1, t1) => (.ok r, c1, t1)
    | none =>
      let pr := pySplit path
      if pr.2 == "" then
        match get_root_node st c with
        | (none, c1, t1) => (.error .attributeError, c1, t1)
        | (some rn, c1, t1) => (.ok (some rn), insertBoth c1 path rn, t1)
      else
        match resolveF fuel st c pr.1 trash with
        | (.error e, c1, t1) => (.error e, c1, t1)
        | (.ok none, c1, t1) => (.ok none, c1, t1)
        | (.ok (some parent), c1, t1) =>
          match childOfQuery st pr.2 parent.id with
          | [] => (.ok none, c1, t1 ++ [Stmt.childOf])
          | row :: rest =>
            let rn := mkNode row (fileRowFor st row.id)
            if rn.is_available then
              (.ok (some rn), insertBoth c1 path rn, t1 ++ [Stmt.childOf])
            else if !trash then
              (.ok none, c1, t1 ++ [Stmt.childOf])
            else if !rest.isEmpty then
              (.ok none, c1, t1 ++ [Stmt.childOf])
            else
              (.ok (some rn), insertBoth c1 path rn, t1 ++ [Stmt.childOf])

/-- `QueryMixin.resolve`.  Each recursive call strictly shortens the
path, so `length + 1` fuel always suffices (proved below). -/
def resolve (st : Store) (c : Cache) (path : String) (trash : Bool) :
    Except PyErr (Option Node) × Cache × List Stmt :=
  resolveF (path.length + 1) st c path trash

/-- `QueryMixin.resolve_id`. -/
def resolve_id (st : Store) (c : Cache) (path : String) (trash : Bool) :
    Except PyErr (Option String) × Cache × List Stmt :=
  match resolve st c path trash with
  | (.error e, c1, t1) => (.error e, c1, t1)
  | (.ok r, c1, t1) => (.ok (r.map (fun n => n.id)), c1, t1)

/-- `QueryMixin.get_conflicting_node`: first row of
`CONFLICTING_NODE_SQL` with the name parameter lowered.  Does not
touch the cache. -/
def get_conflicting_node (st : Store) (name pid : String) :
    Option Node × List Stmt :=
  ((conflictingNodeQuery st name.toLower pid).head?.map
      (fun r => mkNode r (fileRowFor st r.id)),
   [Stmt.conflictingNode])

/-- `QueryMixin.childrens_names`: names of the available children,
ordered by name (`CHILDRENS_NAMES_SQL`). -/
def childrens_names (st : Store) (fid : String) : List String × List Stmt :=
  (((childrenQuery st fid).filter (fun r => r.status == "AVAILABLE")).map
      (fun r => r.name),
   [Stmt.childrensNames])

/-- `QueryMixin.get_node_count` (`NUM_NODES_SQL`). -/
def get_node_count (st : Store) : Nat × List Stmt :=
  (st.nodes.length, [Stmt.numNodes])

/-- `QueryMixin.get_folder_count` (`NUM_FOLDERS_SQL`). -/
def get_folder_count (st : Store) : Nat × List Stmt :=
  ((st.nodes.filter (fun n => n.type == "folder")).length, [Stmt.numFolders])

/-- `QueryMixin.get_file_count` (`NUM_FILES_SQL`). -/
def get_file_count (st : Store) : Nat × List Stmt :=
  (st.files.length, [Stmt.numFiles])

/-- `QueryMixin.calculate_usage` (`USAGE_SQL`): sum of file sizes, `0`
when the relation is empty (`SUM` yields NULL then). -/
def calculate_usage (st : Store) : Nat × List Stmt :=
  (st.files.foldl (fun acc fr => acc + fr.size) 0, [Stmt.usage])

/-- `QueryMixin.num_children` (`NUM_CHILDREN_SQL`): available children
only. -/
def num_children (st : Store) (fid : String) : Nat × List Stmt :=
  ((st.nodes.filter (fun n =>
      st.parentage.contains (fid, n.id) && n.status == "AVAILABLE")).length,
   [Stmt.numChildren])

/-- `QueryMixin.num_parents` (`NUM_PARENTS_SQL`): available parents
only. -/
def num_parents (st : Store) (nid : String) : Nat × List Stmt :=
  ((st.nodes.filter (fun n =>
      st.parentage.contains (n.id, nid) && n.status == "AVAILABLE")).length,
   [Stmt.numParents])

/-- `QueryMixin.get_child`: first `CHILD_OF_SQL` row, returned only
when available. -/
def get_child (st : Store) (fid name : String) : Option Node × List Stmt :=
  match (childOfQuery st name fid).head? with
  | none => (none, [Stmt.childOf])
  | some row =>
    let n := mkNode row (fileRowFor st row.id)
    (if n.is_available then some n else none, [Stmt.childOf])

/-- Cache installment loop body of `list_children`: available children
go into the id map; when the caller supplied `folder_path`, every
listed child gets a path entry. -/
def lcStep (folder_path : Option String) (acc : Cache) (n : Node) : Cache :=
  let acc1 := if n.is_available then setIdCache acc n else acc
  match folder_path with
  | some fp => setPathCache acc1 (fp ++ "/" ++ n.name) n.id
  | none => acc1

/-- `QueryMixin.list_children`: partitions the `CHILDREN_SQL` rows that
pass the `is_available or trash` filter into folders and files, then
installs cache entries: available children into the id map, and - when
`folder_path` is given - a path entry for every listed child. -/
def list_children (st : Store) (c : Cache) (fid : String) (trash : Bool)
    (folder_path : Option String) :
    (List Node × List Node) × Cache × List Stmt :=
  let listed := ((childrenQuery st fid).map
      (fun r => mkNode r (fileRowFor st r.id))).filter
      (fun n => n.is_available || trash)
  let folders := listed.filter (fun n => n.is_folder)
  let files := listed.filter (fun n => n.is_file)
  let c1 := (folders ++ files).foldl (lcStep folder_path) c
  ((folders, files), c1, [Stmt.childrenQ])

/-- `QueryMixin.list_trashed_children`: `list_children` with
`trash=True` and no path, restricted to trashed entries. -/
def list_trashed_children (st : Store) (c : Cache) (fid : String) :
    (List Node × List Node) × Cache × List Stmt :=
  match list_children st c fid true none with
  | ((folders, files), c1, t1) =>
    ((folders.filter (fun n => n.is_trashed),
      files.filter (fun n => n.is_trashed)), c1, t1)

/-- `QueryMixin.first_path`, fuelled.  `Node(None)` - the fetch of a
parent row that does not exist - raises a `TypeError` in Python.  Note
that for a non-root node the function returns the path of the node's
first parent (terminated by '/'), not a path ending in the node's own
name. -/
def first_pathF : Nat → Store → String → Except PyErr String × List Stmt
  | 0, _, _ => (.error .recursionError, [])
  | fuel + 1, st, nid =>
    if nid == st.root_id then (.ok "/", [])
    else
      match firstParentQuery st nid with
      | [] => (.error .typeError, [Stmt.findFirstParent])
      | row :: _ =>
        let n := mkNode row none
        if n.id == st.root_id then (.ok n.simple_name, [Stmt.findFirstParent])
        else
          match first_pathF fuel st n.id with
          | (.error e, t1) => (.error e, Stmt.findFirstParent :: t1)
          | (.ok s, t1) => (.ok (s ++ n.name ++ "/"), Stmt.findFirstParent :: t1)

/-- Loop body of `QueryMixin.all_path`: iterate over the `PARENTS_SQL`
rows, recursing (through `rec`) into every available parent and
concatenating the results; non-available parents are skipped. -/
def allPathLoop (rec : Cache → String → Option String →
      Except PyErr (List String) × Cache × List Stmt)
    (c : Cache) (s : String) :
    List NodeRow → Except PyErr (List String) × Cache × List Stmt
  | [] => (.ok [], c, [])
  | row :: rows =>
    if row.status == "AVAILABLE" then
      match rec c row.id (some s) with
      | (.error e, c1, t1) => (.error e, c1, t1)
      | (.ok ls, c1, t1) =>
        match allPathLoop rec c1 s rows with
        | (.error e, c2, t2) => (.error e, c2, t1 ++ t2)
        | (.ok ls2, c2, t2) => (.ok (ls ++ ls2), c2, t1 ++ t2)
    else allPathLoop rec c s rows

/-- `QueryMixin.all_path`, fuelled.  At the root, `"/" + path_suffix`
raises a `TypeError` when no suffix was passed (`path_suffix=None`).
Otherwise the node is fetched via `get_node` (absence yields `[]`), the
suffix is extended with `os.path.join`, and every available parent is
expanded recursively. -/
def all_pathF : Nat → Store → Cache → String → Option String →
    Except PyErr (List String) × Cache × List Stmt
  | 0, _, c, _, _ => (.error .recursionError, c, [])
  | fuel + 1, st, c, nid, suffix =>
    if nid == st.root_id then
      match suffix with
      | none => (.error .typeError, c, [])
      | some s => (.ok ["/" ++ s], c, [])
    else
      match get_node st c nid with
      | (none, c1, t1) => (.ok [], c1, t1)
      | (some n, c1, t1) =>
        let s1 := match suffix with
          | some s => pyJoin n.name s
          | none => n.name
        match allPathLoop (fun cc id sfx => all_pathF fuel st cc id sfx) c1 s1
            (parentsQuery st nid) with
        | (.error e, c2, t2) => (.error e, c2, t1 ++ [Stmt.parentsQ] ++ t2)
        | (.ok ls, c2, t2) => (.ok ls, c2, t1 ++ [Stmt.parentsQ] ++ t2)

/-- Case-insensitive containment test for SQL `LIKE '%x%'`. -/
def likeContains (pat : List Char) : List Char → Bool
  | [] => pat.isEmpty
  | ch :: cs => pat.isPrefixOf (ch :: cs) || likeContains pat cs

/-- `QueryMixin.find_by_name` (`FIND_BY_NAME_SQL`): case-insensitive
substring match on the name, any status, ordered by name. -/
def find_by_name (st : Store) (name : String) : List Node × List Stmt :=
  ((sortBy nameLt (st.nodes.filter
      (fun n => likeContains name.toLower.data n.name.toLower.data))).map
      (fun r => mkNode r (fileRowFor st r.id)),
   [Stmt.findByName])

/-- `QueryMixin.find_by_md5` (`FIND_BY_MD5_SQL`): nodes whose joined
file row has the given checksum, ordered by name. -/
def find_by_md5 (st : Store) (md5 : String) : List Node × List Stmt :=
  ((sortBy nameLt (st.nodes.filter
      (fun n => match fileRowFor st n.id with
        | some fr => fr.md5 == some md5
        | none => false))).map
      (fun r => mkNode r (fileRowFor st r.id)),
   [Stmt.findByMd5])

/-- `QueryMixin.find_by_regex` (`FIND_BY_REGEX_SQL`).  The `REGEXP`
predicate is a user-defined SQL function registered outside this
module, so the compiled pattern is modelled as a predicate argument. -/
def find_by_regex (st : Store) (isMatch : String → Bool) :
    List Node × List Stmt :=
  ((sortBy nameLt (st.nodes.filter (fun n => isMatch n.name))).map
      (fun r => mkNode r (fileRowFor st r.id)),
   [Stmt.findByRegex])

/-- `QueryMixin.file_size_exists` (`FILE_SIZE_EXISTS_SQL`): whether an
available file of the given size exists. -/
def file_size_exists (st : Store) (size : Nat) : Bool × List Stmt :=
  (!(st.files.filter (fun fr => fr.size == size
      && (st.nodes.filter (fun n => n.id == fr.id
            && n.status == "AVAILABLE")).length != 0)).isEmpty,
   [Stmt.fileSizeExists])

/-- `QueryMixin.get_property` (`PROPERTY_BY_ID_SQL`): value of the
property row matching id, owner and key, else `None`. -/
def get_property (st : Store) (nid oid key : String) :
    Option String × List Stmt :=
  ((st.properties.find? (fun p =>
      p.id == nid && p.owner == oid && p.key == key)).map (fun p => p.value),
   [Stmt.propertyById])

/-- `QueryMixin.get_content` (`CONTENT_BY_ID_SQL`): version 0 returns
`None` without touching the store; otherwise the matching content row's
value, else `None`.  The `CONTENT_ACCESSED_SQL` UPDATE is commented out
in the source and never executed. -/
def get_content (st : Store) (nid : String) (version : Nat) :
    Option (List Nat) × List Stmt :=
  if version == 0 then (none, [])
  else
    ((st.content.find? (fun r => r.id == nid && r.version == version)).map
        (fun r => r.value),
     [Stmt.contentById])

/-- Every executed statement of a trace is a read. -/
def noWrites (tr : List Stmt) : Bool := tr.all (fun s => !isWrite s)

/-- Every node held by the id cache has status AVAILABLE. -/
def idCacheAvail (c : Cache) : Bool :=
  c.node_id_to_node_cache.all (fun p => p.2.status == "AVAILABLE")

/-- The store holds a row for the configured root id. -/
def rootPresent (st : Store) : Bool := (nodeByIdQuery st st.root_id).isSome

/-- The row the store holds for the root id (if any) is available. -/
def rootAvail (st : Store) : Bool :=
  match nodeByIdQuery st st.root_id with
  | some r => r.status == "AVAILABLE"
  | none => true

/-- The id cache agrees with the store: every cached node is exactly
the node a fresh `NODE_BY_ID_SQL` read would produce. -/
def CoherentId (st : Store) (c : Cache) : Prop :=
  ∀ id n, lookupS c.node_id_to_node_cache id = some n → storeNode st id = some n

/-- First-parent chain of `first_path`: `FPChain st nid s` holds when
walking the first row of `FIND_FIRST_PARENT_SQL` upwards from `nid`
reaches the root and concatenates to the string `s`; the index is the
number of recursive steps. -/
inductive FPChain (st : Store) : String → String → Nat → Prop
  | base (nid : String) (row : NodeRow) (rest : List NodeRow) :
      firstParentQuery st nid = row :: rest → row.id = st.root_id →
      FPChain st nid (mkNode row none).simple_name 0
  | step (nid : String) (row : NodeRow) (rest : List NodeRow) (s : String) (k : Nat) :
      firstParentQuery st nid = row :: rest → row.id ≠ st.root_id →
      FPChain st row.id s k →
      FPChain st nid (s ++ row.name ++ "/") (k + 1)

/-- A name that behaves like a plain path segment: non-empty and
neither starting nor ending with '/'. -/
def SegName (s : String) : Prop :=
  s ≠ "" ∧ s.data.head? ≠ some '/' ∧ s.data.getLast? ≠ some '/'

/-- Unique available ancestry: `SolePath st nid dir k` holds when every
node on the way from `nid` up to the root has exactly one available
parent, so that `nid` is reachable from the root by exactly one
available path; `dir` is the directory string of that path (each
ancestor name from the root down to `nid` itself, each followed by
'/'), and `k` bounds the recursion depth. -/
inductive SolePath (st : Store) : String → String → Nat → Prop
  | root : SolePath st st.root_id "" 0
  | step (nid : String) (n : Node) (p : NodeRow) (dir : String) (k : Nat) :
      nid ≠ st.root_id →
      storeNode st nid = some n →
      SegName n.name →
      (parentsQuery st nid).filter (fun r => r.status == "AVAILABLE") = [p] →
      SolePath st p.id dir k →
      SolePath st nid (dir ++ n.name ++ "/") (k + 1)

/-- Timestamp strings reused by the example rows. -/
def ts : String := "2015-01-17 14:45:53.302+00:00"

/-- Example `nodes` row for the root folder. -/
def rootRow : NodeRow :=
  { id := "root", type := "folder", name := "", description := "",
    created := ts, modified := ts, updated := ts, status := "AVAILABLE" }

/-- Example row: available folder `a`. -/
def rowA : NodeRow :=
  { id := "idA", type := "folder", name := "a", description := "",
    created := ts, modified := ts, updated := ts, status := "AVAILABLE" }

/-- Example row: available file `b`. -/
def rowB : NodeRow :=
  { id := "idB", type := "file", name := "b", description := "",
    created := ts, modified := ts, updated := ts, status := "AVAILABLE" }

/-- Example row: trashed file `x` (first copy). -/
def rowX1 : NodeRow :=
  { id := "idX1", type := "file", name := "x", description := "",
    created := ts, modified := ts, updated := ts, status := "TRASH" }

/-- Example row: trashed file `x` (second copy). -/
def rowX2 : NodeRow :=
  { id := "idX2", type := "file", name := "x", description := "",
    created := ts, modified := ts, updated := ts, status := "TRASH" }

/-- Example row: available folder `pa`. -/
def rowPA : NodeRow :=
  { id := "idPA", type := "folder", name := "pa", description := "",
    created := ts, modified := ts, updated := ts, status := "AVAILABLE" }

/-- Example row: available folder `pb`. -/
def rowPB : NodeRow :=
  { id := "idPB", type := "folder", name := "pb", description := "",
    created := ts, modified := ts, updated := ts, status := "AVAILABLE" }

/-- Example row: available file `c` with two parents. -/
def rowC : NodeRow :=
  { id := "idC", type := "file", name := "c", description := "",
    created := ts, modified := ts, updated := ts, status := "AVAILABLE" }

/-- Store with an available root and one trashed child `x`. -/
def store1 : Store :=
  { nodes := [rootRow, rowX1], parentage := [("root", "idX1")],
    files := [], properties := [], content := [], root_id := "root" }

/-- Store with an available root and two trashed children named `x`. -/
def store2 : Store :=
  { nodes := [rootRow, rowX1, rowX2],
    parentage := [("root", "idX1"), ("root", "idX2")],
    files := [], properties := [], content := [], root_id := "root" }

/-- Store with root, folder `a` under root and file `b` under `a`. -/
def store3 : Store :=
  { nodes := [rootRow, rowA, rowB],
    parentage := [("root", "idA"), ("idA", "idB")],
    files := [], properties := [], content := [], root_id := "root" }

/-- Store in which file `c` has the two available parents `pa` and
`pb`, both children of the root. -/
def store4 : Store :=
  { nodes := [rootRow, rowPA, rowPB, rowC],
    parentage := [("root", "idPA"), ("root", "idPB"),
                  ("idPA", "idC"), ("idPB", "idC")],
    files := [], properties := [], content := [], root_id := "root" }

/-- Store that lacks a row for its configured root id. -/
def store0 : Store :=
  { nodes := [], parentage := [], files := [], properties := [],
    content := [], root_id := "root" }

/-- Python `==` between two `Node` objects.  The class defines
`__lt__`, `__hash__` and `__repr__` but no `__eq__`, so CPython falls
back to `object.__eq__`: reference identity.  Objects are addresses
into a heap `Nat → Node`. -/
def pyNodeEq (a b : Nat) : Bool := a == b

/-- Python `hash()` of a `Node` object: `Node.__hash__` returns
`hash(self.id)`, a pure function of the id string, which we model by
the id string itself (equal strings hash equal in Python). -/
def pyNodeHash (heap : Nat → Node) (a : Nat) : String := (heap a).id

/-- A heap holding the same trashed node value at every address: two
distinct `Node` objects built from the same store row. -/
def nodeHeap : Nat → Node := fun _ => mkNode rowX1 none

/-! Helper lemmas about the association-list dictionaries. -/

theorem lookupS_insert_self (l : List (String × α)) (k : String) (v : α) :
    lookupS (insertS l k v) k = some v := by
  simp [lookupS, insertS, List.find?]

theorem lookupS_mem (l : List (String × α)) (k : String) (v : α)
    (h : lookupS l k = some v) : (k, v) ∈ l := by
  unfold lookupS at h
  cases hf : l.find? (fun p => p.1 == k) with
  | none => simp [hf] at h
  | some p =>
    have hp := List.find?_some hf
    have hm := List.mem_of_find?_eq_some hf
    simp [hf] at h
    have : p.1 = k := by simpa using hp
    cases p with
    | mk a b => subst h; cases this; exact hm

theorem allP_filter (P : α → Bool) (q : α → Bool) (l : List α)
    (h : l.all P = true) : (l.filter q).all P = true := by
  induction l with
  | nil => simp
  | cons x xs ih =>
    simp only [List.all_cons, Bool.and_eq_true] at h
    simp only [List.filter]
    cases hq : q x with
    | true => simp [List.all_cons, h.1, ih h.2]
    | false => exact ih h.2

theorem idCacheAvail_insert (c : Cache) (n : Node)
    (hc : idCacheAvail c = true) (hn : n.status = "AVAILABLE") :
    idCacheAvail (setIdCache c n) = true := by
  simp only [idCacheAvail, setIdCache, insertS, List.all_cons, Bool.and_eq_true]
  exact ⟨by simp [hn], allP_filter _ _ _ hc⟩

theorem idCacheAvail_lookup (c : Cache) (id : String) (n : Node)
    (hc : idCacheAvail c = true)
    (h : lookupS c.node_id_to_node_cache id = some n) :
    n.status = "AVAILABLE" := by
  have hm := lookupS_mem _ _ _ h
  have := List.all_eq_true.mp hc _ hm
  simpa using this

/-! Helper lemmas about `pySplit`. -/

theorem dropTrailingSlashes_length_le (cs : List Char) :
    (dropTrailingSlashes cs).length ≤ cs.length := by
  simp only [dropTrailingSlashes, List.length_reverse]
  calc (cs.reverse.dropWhile (fun ch => ch == '/')).length
      ≤ cs.reverse.length := (List.dropWhile_sublist _).length_le
    _ = cs.length := List.length_reverse cs

theorem pySplit_head_lt (p : String) (h : (pySplit p).2 ≠ "") :
    (pySplit p).1.length < p.length := by
  have htne : pyTail p ≠ [] := by
    intro hnil
    apply h
    show (String.mk (pyTail p)) = ""
    rw [hnil]
  have htlen : 0 < (pyTail p).length := List.length_pos.mpr htne
  have hplen : 0 < p.data.length := by
    have : (pyTail p).length ≤ p.data.length := by
      unfold pyTail
      rw [List.length_reverse]
      calc (p.data.reverse.takeWhile (fun ch => !(ch == '/'))).length
          ≤ p.data.reverse.length := (List.takeWhile_sublist _).length_le
        _ = p.data.length := List.length_reverse p.data
    exact lt_of_lt_of_le htlen this
  have hraw : (pyHeadRaw p).length < p.data.length := by
    unfold pyHeadRaw
    rw [List.length_take]
    exact lt_of_le_of_lt (Nat.min_le_left _ _) (Nat.sub_lt hplen htlen)
  have hhead : (pyHead p).length ≤ (pyHeadRaw p).length := by
    unfold pyHead
    by_cases hcase : (pyHeadRaw p).isEmpty || (pyHeadRaw p).all (fun ch => ch == '/')
    · rw [if_pos hcase]
    · rw [if_neg hcase]
      exact dropTrailingSlashes_length_le _
  show (String.mk (pyHead p)).length < p.length
  show (pyHead p).length < p.data.length
  exact lt_of_le_of_lt hhead hraw

/-! Fuel irrelevance for `resolveF`: any fuel above the path length
gives the same result, so the wrapper `resolve` captures the Python
recursion exactly. -/

theorem resolveF_fuel_eq :
    ∀ (n : Nat) (p : String), p.length ≤ n →
      ∀ (f1 f2 : Nat) (st : Store) (c : Cache) (trash : Bool),
        p.length < f1 → p.length < f2 →
        resolveF f1 st c p trash = resolveF f2 st c p trash := by
  intro n
  induction n with
  | zero =>
    intro p hp f1 f2 st c trash h1 h2
    match f1, h1 with
    | a + 1, _ =>
    match f2, h2 with
    | b + 1, _ =>
    have hname : (pySplit p).2 = "" := by
      have hp0 : p.data.length = 0 := Nat.le_zero.mp hp
      have : p.data = [] := List.length_eq_zero.mp hp0
      show (String.mk (pyTail p)) = ""
      unfold pyTail
      rw [this]
      rfl
    simp only [resolveF]
    cases hlook : lookupS c.path_to_node_id_cache p with
    | some nid => simp [hlook]
    | none => simp [hlook, hname]
  | succ k ih =>
    intro p hp f1 f2 st c trash h1 h2
    match f1, h1 with
    | a + 1, h1 =>
    match f2, h2 with
    | b + 1, h2 =>
    simp only [resolveF]
    cases hlook : lookupS c.path_to_node_id_cache p with
    | some nid => simp [hlook]
    | none =>
      by_cases hname : (pySplit p).2 = ""
      · simp [hlook, hname]
      · have hlt := pySplit_head_lt p hname
        have hkey : resolveF a st c (pySplit p).1 trash
            = resolveF b st c (pySplit p).1 trash := by
          apply ih (pySplit p).1
          · exact Nat.le_of_lt_succ (lt_of_lt_of_le hlt hp)
          · exact lt_of_lt_of_le hlt (Nat.lt_succ_iff.mp h1)
          · exact lt_of_lt_of_le hlt (Nat.lt_succ_iff.mp h2)
        simp [hlook, hname, hkey]

theorem resolveF_eq_resolve (f : Nat) (st : Store) (c : Cache) (p : String)
    (trash : Bool) (h : p.length < f) :
    resolveF f st c p trash = resolve st c p trash :=
  resolveF_fuel_eq p.length p (le_refl _) f (p.length + 1) st c trash h
    (Nat.lt_succ_self _)

/-- Unfolding `resolve` on a path-cache hit: the call returns whatever
`get_node` yields for the cached id (even `None`). -/
theorem resolve_cache_hit (st : Store) (c : Cache) (path : String)
    (trash : Bool) (nid : String)
    (h : lookupS c.path_to_node_id_cache path = some nid) :
    resolve st c path trash =
      (.ok (get_node st c nid).1, (get_node st c nid).2) := by
  show resolveF (path.length + 1) st c path trash = _
  simp only [resolveF, h]

/-- Unfolding `resolve` on a cache miss with an empty leaf name: the
root branch runs, caching and returning the root node, or raising
`AttributeError` when there is none. -/
theorem resolve_root_branch (st : Store) (c : Cache) (path : String)
    (trash : Bool)
    (hmiss : lookupS c.path_to_node_id_cache path = none)
    (hname : (pySplit path).2 = "") :
    resolve st c path trash =
      match get_root_node st c with
      | (none, c1, t1) => (.error .attributeError, c1, t1)
      | (some rn, c1, t1) => (.ok (some rn), insertBoth c1 path rn, t1) := by
  show resolveF (path.length + 1) st c path trash = _
  simp only [resolveF, hmiss, hname]
  simp

/-- Unfolding `resolve` on a cache miss with a non-empty leaf name,
given the outcome of resolving the parent path: the `CHILD_OF_SQL`
rows decide the result exactly as in the source. -/
theorem resolve_child_branch (st : Store) (c : Cache) (path : String)
    (trash : Bool) (parent : Node) (c1 : Cache) (t1 : List Stmt)
    (hmiss : lookupS c.path_to_node_id_cache path = none)
    (hname : (pySplit path).2 ≠ "")
    (hpar : resolve st c (pySplit path).1 trash = (.ok (some parent), c1, t1)) :
    resolve st c path trash =
      match childOfQuery st (pySplit path).2 parent.id with
      | [] => (.ok none, c1, t1 ++ [Stmt.childOf])
      | row :: rest =>
        let rn := mkNode row (fileRowFor st row.id)
        if rn.is_available then
          (.ok (some rn), insertBoth c1 path rn, t1 ++ [Stmt.childOf])
        else if !trash then (.ok none, c1, t1 ++ [Stmt.childOf])
        else if !rest.isEmpty then (.ok none, c1, t1 ++ [Stmt.childOf])
        else (.ok (some rn), insertBoth c1 path rn, t1 ++ [Stmt.childOf]) := by
  show resolveF (path.length + 1) st c path trash = _
  have hrec : resolveF path.length st c (pySplit path).1 trash
      = (.ok (some parent), c1, t1) := by
    rw [resolveF_eq_resolve _ _ _ _ _ (pySplit_head_lt path hname)]
    exact hpar
  simp only [resolveF, hmiss, hname, hrec]
  simp [hname]

/-! Availability facts about `get_node`, `list_children` and the
cache-installment helpers. -/

theorem idCacheAvail_setPathCache (c : Cache) (k v : String) :
    idCacheAvail (setPathCache c k v) = idCacheAvail c := rfl

theorem idCacheAvail_insertBoth (c : Cache) (p : String) (n : Node)
    (hc : idCacheAvail c = true) (hn : n.status = "AVAILABLE") :
    idCacheAvail (insertBoth c p n) = true := by
  show idCacheAvail (setPathCache (setIdCache c n) p n.id) = true
  rw [idCacheAvail_setPathCache]
  exact idCacheAvail_insert c n hc hn

theorem get_node_idAvail (st : Store) (c : Cache) (id : String)
    (hc : idCacheAvail c = true) :
    idCacheAvail (get_node st c id).2.1 = true := by
  unfold get_node
  cases hlook : lookupS c.node_id_to_node_cache id with
  | some n => simpa [hlook] using hc
  | none =>
    cases hsn : storeNode st id with
    | none => simpa [hsn] using hc
    | some n =>
      by_cases hav : n.is_available = true
      · have hst : n.status = "AVAILABLE" := by
          simpa [Node.is_available] using hav
        simpa [hsn, hav] using idCacheAvail_insert c n hc hst
      · simp only [Bool.not_eq_true] at hav
        simpa [hsn, hav] using hc

theorem storeNode_status (st : Store) (id : String) (n : Node)
    (h : storeNode st id = some n) :
    ∃ r, nodeByIdQuery st id = some r ∧ n.status = r.status := by
  unfold storeNode at h
  cases hq : nodeByIdQuery st id with
  | none => simp [hq] at h
  | some r =>
    refine ⟨r, rfl, ?_⟩
    simp [hq] at h
    subst h
    rfl

theorem get_root_result_avail (st : Store) (c : Cache) (n : Node)
    (hc : idCacheAvail c = true) (hra : rootAvail st = true)
    (h : (get_node st c st.root_id).1 = some n) :
    n.status = "AVAILABLE" := by
  unfold get_node at h
  cases hlook : lookupS c.node_id_to_node_cache st.root_id with
  | some m =>
    have hm : m = n := by simpa [hlook] using h
    subst hm
    exact idCacheAvail_lookup c st.root_id m hc hlook
  | none =>
    cases hsn : storeNode st st.root_id with
    | none => simp [hlook, hsn] at h
    | some m =>
      have hm : m = n := by
        by_cases hav : m.is_available = true
        · simpa [hlook, hsn, hav] using h
        · simp only [Bool.not_eq_true] at hav
          simpa [hlook, hsn, hav] using h
      subst hm
      obtain ⟨r, hr, hs⟩ := storeNode_status st st.root_id m hsn
      rw [hs]
      unfold rootAvail at hra
      rw [hr] at hra
      simpa using hra

theorem lcStep_idAvail (fp : Option String) (c : Cache) (n : Node)
    (hc : idCacheAvail c = true) :
    idCacheAvail (lcStep fp c n) = true := by
  unfold lcStep
  have hacc1 : idCacheAvail (if n.is_available then setIdCache c n else c) = true := by
    by_cases hav : n.is_available = true
    · have hst : n.status = "AVAILABLE" := by
        simpa [Node.is_available] using hav
      simpa [hav] using idCacheAvail_insert c n hc hst
    · simp only [Bool.not_eq_true] at hav
      simpa [hav] using hc
  cases fp with
  | none => simpa using hacc1
  | some f => simpa [idCacheAvail_setPathCache] using hacc1

theorem foldl_lcStep_idAvail (fp : Option String) :
    ∀ (ns : List Node) (c : Cache), idCacheAvail c = true →
      idCacheAvail (ns.foldl (lcStep fp) c) = true := by
  intro ns
  induction ns with
  | nil => intro c hc; simpa using hc
  | cons n rest ih =>
    intro c hc
    simpa using ih (lcStep fp c n) (lcStep_idAvail fp c n hc)

theorem list_children_idAvail (st : Store) (c : Cache) (fid : String)
    (trash : Bool) (fp : Option String) (hc : idCacheAvail c = true) :
    idCacheAvail (list_children st c fid trash fp).2.1 = true :=
  foldl_lcStep_idAvail fp _ c hc

theorem resolveF_idAvail :
    ∀ (fuel : Nat) (st : Store) (c : Cache) (p : String),
      rootAvail st = true → idCacheAvail c = true →
      idCacheAvail (resolveF fuel st c p false).2.1 = true := by
  intro fuel
  induction fuel with
  | zero => intro st c p _ hc; simpa [resolveF] using hc
  | succ f ih =>
    intro st c p hra hc
    simp only [resolveF]
    cases hlook : lookupS c.path_to_node_id_cache p with
    | some nid => simpa [hlook] using get_node_idAvail st c nid hc
    | none =>
      by_cases hname : (pySplit p).2 = ""
      · simp only [hlook, hname]
        cases hg : get_node st c st.root_id with
        | mk r rest =>
          have hrest : idCacheAvail rest.1 = true := by
            have := get_node_idAvail st c st.root_id hc
            rw [hg] at this
            exact this
          cases r with
          | none => simpa [get_root_node, hg] using hrest
          | some rn =>
            have hav : rn.status = "AVAILABLE" := by
              apply get_root_result_avail st c rn hc hra
              rw [hg]
            simpa [get_root_node, hg] using
              idCacheAvail_insertBoth rest.1 p rn hrest hav
      · simp only [hlook, hname]
        cases hrec : resolveF f st c (pySplit p).1 false with
        | mk res rest =>
          have hc1 : idCacheAvail rest.1 = true := by
            have := ih st c (pySplit p).1 hra hc
            rw [hrec] at this
            exact this
          cases res with
          | error e => simpa [hname, hrec] using hc1
          | ok r =>
            cases r with
            | none => simpa [hname, hrec] using hc1
            | some parent =>
              cases hco : childOfQuery st (pySplit p).2 parent.id with
              | nil => simpa [hname, hrec, hco] using hc1
              | cons row rest2 =>
                by_cases hav : (mkNode row (fileRowFor st row.id)).is_available = true
                · have hst : (mkNode row (fileRowFor st row.id)).status = "AVAILABLE" := by
                    simpa [Node.is_available] using hav
                  simpa [hname, hrec, hco, hav] using
                    idCacheAvail_insertBoth rest.1 p _ hc1 hst
                · simp only [Bool.not_eq_true] at hav
                  simpa [hname, hrec, hco, hav] using hc1

/-! Read-only traces: no operation ever executes the UPDATE statement. -/

theorem noWrites_append (t1 t2 : List Stmt) :
    noWrites (t1 ++ t2) = (noWrites t1 && noWrites t2) := by
  simp [noWrites, List.all_append]

theorem noWrites_snoc_read (t : List Stmt) (s : Stmt)
    (ht : noWrites t = true) (hs : isWrite s = false) :
    noWrites (t ++ [s]) = true := by
  rw [noWrites_append, ht]
  simp [noWrites, hs]

theorem get_node_noWrites (st : Store) (c : Cache) (id : String) :
    noWrites (get_node st c id).2.2 = true := by
  unfold get_node
  cases hlook : lookupS c.node_id_to_node_cache id with
  | some n => simp [noWrites]
  | none =>
    cases hsn : storeNode st id with
    | none => simp [noWrites, isWrite]
    | some n =>
      by_cases hav : n.is_available = true
      · simp [hav, noWrites, isWrite]
      · simp only [Bool.not_eq_true] at hav
        simp [hav, noWrites, isWrite]

theorem resolveF_noWrites :
    ∀ (fuel : Nat) (st : Store) (c : Cache) (p : String) (trash : Bool),
      noWrites (resolveF fuel st c p trash).2.2 = true := by
  intro fuel
  induction fuel with
  | zero => intro st c p trash; simp [resolveF, noWrites]
  | succ f ih =>
    intro st c p trash
    simp only [resolveF]
    cases hlook : lookupS c.path_to_node_id_cache p with
    | some nid => simpa [hlook] using get_node_noWrites st c nid
    | none =>
      by_cases hname : (pySplit p).2 = ""
      · simp only [hlook, hname]
        cases hg : get_node st c st.root_id with
        | mk r rest =>
          have hrt : noWrites rest.2 = true := by
            have := get_node_noWrites st c st.root_id
            rw [hg] at this
            exact this
          cases r with
          | none => simpa [get_root_node, hg] using hrt
          | some rn => simpa [get_root_node, hg] using hrt
      · simp only [hlook, hname]
        cases hrec : resolveF f st c (pySplit p).1 trash with
        | mk res rest =>
          have ht1 : noWrites rest.2 = true := by
            have := ih st c (pySplit p).1 trash
            rw [hrec] at this
            exact this
          cases res with
          | error e => simpa [hname, hrec] using ht1
          | ok r =>
            cases r with
            | none => simpa [hname, hrec] using ht1
            | some parent =>
              have hsnoc : noWrites (rest.2 ++ [Stmt.childOf]) = true :=
                noWrites_snoc_read _ _ ht1 rfl
              cases hco : childOfQuery st (pySplit p).2 parent.id with
              | nil =>
                simpa [hname, hrec, hco] using hsnoc
              | cons row rest2 =>
                by_cases hav : (mkNode row (fileRowFor st row.id)).is_available = true
                · simpa [hname, hrec, hco, hav] using hsnoc
                · simp only [Bool.not_eq_true] at hav
                  cases trash with
                  | false => simpa [hname, hrec, hco, hav] using hsnoc
                  | true =>
                    cases rest2 with
                    | nil => simpa [hname, hrec, hco, hav] using hsnoc
                    | cons r2 rest3 => simpa [hname, hrec, hco, hav] using hsnoc

theorem first_pathF_noWrites :
    ∀ (fuel : Nat) (st : Store) (nid : String),
      noWrites (first_pathF fuel st nid).2 = true := by
  intro fuel
  induction fuel with
  | zero => intro st nid; simp [first_pathF, noWrites]
  | succ f ih =>
    intro st nid
    simp only [first_pathF]
    by_cases hr : nid == st.root_id
    · simp [hr, noWrites]
    · simp only [hr]
      cases hq : firstParentQuery st nid with
      | nil => simp [noWrites, isWrite]
      | cons row rest =>
        by_cases hrid : (mkNode row none).id == st.root_id
        · simp [hrid, noWrites, isWrite]
        · simp only [hrid]
          cases hrec : first_pathF f st (mkNode row none).id with
          | mk res t1 =>
            have ht1 : noWrites t1 = true := by
              have := ih st (mkNode row none).id
              rw [hrec] at this
              exact this
            cases res with
            | error e => simpa [noWrites, isWrite] using ht1
            | ok s => simpa [noWrites, isWrite] using ht1

theorem allPathLoop_noWrites
    (rec : Cache → String → Option String →
      Except PyErr (List String) × Cache × List Stmt)
    (hrec : ∀ cc id sfx, noWrites (rec cc id sfx).2.2 = true) :
    ∀ (rows : List NodeRow) (c : Cache) (s : String),
      noWrites (allPathLoop rec c s rows).2.2 = true := by
  intro rows
  induction rows with
  | nil => intro c s; simp [allPathLoop, noWrites]
  | cons row rest ih =>
    intro c s
    simp only [allPathLoop]
    by_cases hav : row.status == "AVAILABLE"
    · simp only [hav, if_true]
      cases hr : rec c row.id (some s) with
      | mk res rest1 =>
        have h1 : noWrites rest1.2 = true := by
          have := hrec c row.id (some s)
          rw [hr] at this
          exact this
        cases res with
        | error e => simpa using h1
        | ok ls =>
          cases hl : allPathLoop rec rest1.1 s rest with
          | mk res2 rest2 =>
            have h2 : noWrites rest2.2 = true := by
              have := ih rest1.1 s
              rw [hl] at this
              exact this
            have h12 : noWrites (rest1.2 ++ rest2.2) = true := by
              rw [noWrites_append, h1, h2]
              rfl
            cases res2 with
            | error e => simpa [hl] using h12
            | ok ls2 => simpa [hl] using h12
    · simp only [hav, if_false]
      exact ih c s

theorem all_pathF_noWrites :
    ∀ (fuel : Nat) (st : Store) (c : Cache) (nid : String)
      (suffix : Option String),
      noWrites (all_pathF fuel st c nid suffix).2.2 = true := by
  intro fuel
  induction fuel with
  | zero => intro st c nid suffix; simp [all_pathF, noWrites]
  | succ f ih =>
    intro st c nid suffix
    simp only [all_pathF]
    by_cases hr : nid == st.root_id
    · cases suffix with
      | none => simp [hr, noWrites]
      | some s => simp [hr, noWrites]
    · simp only [hr]
      cases hg : get_node st c nid with
      | mk r rest =>
        have hgt : noWrites rest.2 = true := by
          have := get_node_noWrites st c nid
          rw [hg] at this
          exact this
        cases r with
        | none => simpa using hgt
        | some n =>
          have key : ∀ s1 : String,
              noWrites ((match allPathLoop (fun cc id sfx => all_pathF f st cc id sfx)
                  rest.1 s1 (parentsQuery st nid) with
                | (.error e, c2, t2) => ((.error e : Except PyErr (List String)), c2,
                    rest.2 ++ [Stmt.parentsQ] ++ t2)
                | (.ok ls, c2, t2) => (.ok ls, c2,
                    rest.2 ++ [Stmt.parentsQ] ++ t2))).2.2 = true := by
            intro s1
            cases hl : allPathLoop (fun cc id sfx => all_pathF f st cc id sfx)
                rest.1 s1 (parentsQuery st nid) with
            | mk res2 rest2 =>
              have h2 : noWrites rest2.2 = true := by
                have := allPathLoop_noWrites
                  (fun cc id sfx => all_pathF f st cc id sfx)
                  (fun cc id sfx => ih st cc id sfx)
                  (parentsQuery st nid) rest.1 s1
                rw [hl] at this
                exact this
              have hall : noWrites (rest.2 ++ [Stmt.parentsQ] ++ rest2.2) = true := by
                rw [noWrites_append, noWrites_append, hgt, h2]
                rfl
              cases res2 with
              | error e => simpa using hall
              | ok ls => simpa using hall
          cases suffix with
          | none => exact key n.name
          | some s => exact key (pyJoin n.name s)

/-! The first-parent chain characterises `first_path`. -/

theorem first_pathF_chain (st : Store) (nid s : String) (k : Nat)
    (h : FPChain st nid s k) :
    nid ≠ st.root_id → ∀ fuel, k + 1 ≤ fuel →
      (first_pathF fuel st nid).1 = .ok s := by
  induction h with
  | base nid2 row rest hq hrid =>
    intro hnr fuel hf
    match fuel, hf with
    | f + 1, _ =>
    have hnr2 : (nid2 == st.root_id) = false := by simpa using hnr
    have hrid2 : ((mkNode row none).id == st.root_id) = true := by
      show (row.id == st.root_id) = true
      simpa using hrid
    simp [first_pathF, hnr2, hq, hrid2]
  | step nid2 row rest s2 k2 hq hrid hchain ih =>
    intro hnr fuel hf
    match fuel, hf with
    | f + 1, hf =>
    have hnr2 : (nid2 == st.root_id) = false := by simpa using hnr
    have hrec := ih hrid f (by omega)
    cases hfp : first_pathF f st row.id with
    | mk res t1 =>
      have hres : res = .ok s2 := by
        rw [hfp] at hrec
        exact hrec
      subst hres
      simp [first_pathF, hnr2, hq, hrid, hfp, mkNode]

/-! Totality of `resolve` when the store holds a root row. -/

theorem get_node_some_of_present (st : Store) (c : Cache)
    (hp : rootPresent st = true) :
    ∃ n, (get_node st c st.root_id).1 = some n := by
  unfold get_node
  cases hlook : lookupS c.node_id_to_node_cache st.root_id with
  | some n => exact ⟨n, by simp [hlook]⟩
  | none =>
    unfold rootPresent at hp
    cases hq : nodeByIdQuery st st.root_id with
    | none => rw [hq] at hp; simp at hp
    | some r =>
      have hsn : storeNode st st.root_id = some (mkNode r (fileRowFor st r.id)) := by
        unfold storeNode
        rw [hq]
        rfl
      by_cases hav : (mkNode r (fileRowFor st r.id)).is_available = true
      · exact ⟨mkNode r (fileRowFor st r.id), by simp [hlook, hsn, hav]⟩
      · simp only [Bool.not_eq_true] at hav
        exact ⟨mkNode r (fileRowFor st r.id), by simp [hlook, hsn, hav]⟩

theorem resolveF_ok :
    ∀ (fuel : Nat) (st : Store) (c : Cache) (p : String) (trash : Bool),
      p.length < fuel → rootPresent st = true →
      ∃ r, (resolveF fuel st c p trash).1 = .ok r := by
  intro fuel
  induction fuel with
  | zero => intro st c p trash h _; exact absurd h (Nat.not_lt_zero _)
  | succ f ih =>
    intro st c p trash hf hp
    simp only [resolveF]
    cases hlook : lookupS c.path_to_node_id_cache p with
    | some nid =>
      cases hg : get_node st c nid with
      | mk r rest => exact ⟨r, by simp [hlook, hg]⟩
    | none =>
      by_cases hname : (pySplit p).2 = ""
      · obtain ⟨n, hn⟩ := get_node_some_of_present st c hp
        cases hg : get_node st c st.root_id with
        | mk r rest =>
          rw [hg] at hn
          cases r with
          | none => simp at hn
          | some rn =>
            exact ⟨some rn, by simp [hlook, hname, get_root_node, hg]⟩
      · have hlt := pySplit_head_lt p hname
        obtain ⟨r, hrec1⟩ := ih st c (pySplit p).1 trash
          (lt_of_lt_of_le hlt (Nat.lt_succ_iff.mp hf)) hp
        cases hrec : resolveF f st c (pySplit p).1 trash with
        | mk res rest =>
          rw [hrec] at hrec1
          simp only at hrec1
          subst hrec1
          cases r with
          | none => exact ⟨none, by simp [hlook, hname, hrec]⟩
          | some parent =>
            cases hco : childOfQuery st (pySplit p).2 parent.id with
            | nil => exact ⟨none, by simp [hlook, hname, hrec, hco]⟩
            | cons row rest2 =>
              by_cases hav : (mkNode row (fileRowFor st row.id)).is_available = true
              · exact ⟨some (mkNode row (fileRowFor st row.id)),
                  by simp [hlook, hname, hrec, hco, hav]⟩
              · simp only [Bool.not_eq_true] at hav
                cases trash with
                | false => exact ⟨none, by simp [hlook, hname, hrec, hco, hav]⟩
                | true =>
                  cases rest2 with
                  | nil =>
                    exact ⟨some (mkNode row (fileRowFor st row.id)),
                      by simp [hlook, hname, hrec, hco, hav]⟩
                  | cons r2 rest3 =>
                    exact ⟨none, by simp [hlook, hname, hrec, hco, hav]⟩

/-! Cache coherence with the store, and path-segment facts about
`os.path.join`, used to characterise `all_path`. -/

theorem find?_filter_ne (k k' : String) (h : k' ≠ k) :
    ∀ l : List (String × α),
      (l.filter (fun p => !(p.1 == k))).find? (fun p => p.1 == k')
        = l.find? (fun p => p.1 == k') := by
  intro l
  induction l with
  | nil => rfl
  | cons a rest ih =>
    by_cases ha : a.1 = k
    · have h1 : (a.1 == k) = true := by simpa using ha
      have h2 : (a.1 == k') = false := by
        simp only [beq_eq_false_iff_ne, ne_eq]
        rw [ha]
        exact fun hk => h hk.symm
      simp [List.filter, h1, List.find?, h2, ih]
    · have h1 : (a.1 == k) = false := by simpa using ha
      simp only [List.filter, h1, Bool.not_false]
      cases h2 : a.1 == k' with
      | true => simp [List.find?, h2]
      | false => simp [List.find?, h2, ih]

theorem lookupS_insert_ne (l : List (String × α)) (k : String) (v : α)
    (k' : String) (h : k' ≠ k) :
    lookupS (insertS l k v) k' = lookupS l k' := by
  have hk : (k == k') = false := by
    simp only [beq_eq_false_iff_ne, ne_eq]
    exact fun hk => h hk.symm
  simp only [lookupS, insertS, List.find?, hk]
  rw [find?_filter_ne k k' h]

theorem storeNode_node_id (st : Store) (id : String) (n : Node)
    (h : storeNode st id = some n) : n.id = id := by
  unfold storeNode nodeByIdQuery at h
  cases hf : st.nodes.find? (fun r => r.id == id) with
  | none => rw [hf] at h; simp at h
  | some r =>
    rw [hf] at h
    have hp := List.find?_some hf
    have hr : r.id = id := by simpa using hp
    have hn : mkNode r (fileRowFor st r.id) = n := by simpa using h
    rw [← hn]
    show r.id = id
    exact hr

theorem coherent_setIdCache (st : Store) (c : Cache) (n : Node)
    (hc : CoherentId st c) (hn : storeNode st n.id = some n) :
    CoherentId st (setIdCache c n) := by
  intro id' m hl
  by_cases hid : id' = n.id
  · subst hid
    rw [show (setIdCache c n).node_id_to_node_cache
        = insertS c.node_id_to_node_cache n.id n from rfl] at hl
    rw [lookupS_insert_self c.node_id_to_node_cache n.id n] at hl
    cases hl
    exact hn
  · rw [show (setIdCache c n).node_id_to_node_cache
        = insertS c.node_id_to_node_cache n.id n from rfl] at hl
    rw [lookupS_insert_ne _ _ _ _ hid] at hl
    exact hc id' m hl

theorem get_node_coherent (st : Store) (c : Cache) (id : String)
    (hc : CoherentId st c) :
    (get_node st c id).1 = storeNode st id
      ∧ CoherentId st (get_node st c id).2.1 := by
  unfold get_node
  cases hlook : lookupS c.node_id_to_node_cache id with
  | some n =>
    have := hc id n hlook
    constructor
    · simp [hlook, this]
    · simpa [hlook] using hc
  | none =>
    cases hsn : storeNode st id with
    | none => constructor <;> simp [hlook, hsn, hc]
    | some n =>
      have hid : n.id = id := storeNode_node_id st id n hsn
      by_cases hav : n.is_available = true
      · constructor
        · simp [hlook, hsn, hav]
        · have : CoherentId st (setIdCache c n) :=
            coherent_setIdCache st c n hc (by rw [hid]; exact hsn)
          simpa [hlook, hsn, hav] using this
      · simp only [Bool.not_eq_true] at hav
        constructor <;> simp [hlook, hsn, hav, hc]

theorem pyJoin_seg (a b : String) (ha : SegName a)
    (hb : b.data.head? ≠ some '/') :
    pyJoin a b = a ++ "/" ++ b := by
  obtain ⟨h1, h2, h3⟩ := ha
  have hb2 : (b.data.head? == some '/') = false := by simpa using hb
  have ha1 : (a == "") = false := by simpa using h1
  have ha3 : (a.data.getLast? == some '/') = false := by simpa using h3
  simp [pyJoin, hb2, ha1, ha3]

theorem seg_append_head (a b : String) (ha : a ≠ "")
    (hh : a.data.head? ≠ some '/') :
    (a ++ "/" ++ b).data.head? ≠ some '/' := by
  have hd : (a ++ "/" ++ b).data = a.data ++ ("/".data ++ b.data) := by
    rw [String.data_append, String.data_append]
    rw [List.append_assoc]
  rw [hd]
  cases hcs : a.data with
  | nil =>
    exfalso
    apply ha
    cases a
    simp_all
  | cons ch rest =>
    rw [hcs] at hh
    simpa using hh

/-! Behaviour of the `all_path` parent loop when the available parents
are known. -/

theorem allPathLoop_filter_nil
    (rec : Cache → String → Option String →
      Except PyErr (List String) × Cache × List Stmt) :
    ∀ (rows : List NodeRow) (c : Cache) (s : String),
      rows.filter (fun r => r.status == "AVAILABLE") = [] →
      allPathLoop rec c s rows = (.ok [], c, []) := by
  intro rows
  induction rows with
  | nil => intro c s _; rfl
  | cons row rest ih =>
    intro c s h
    cases hav : row.status == "AVAILABLE" with
    | true => rw [List.filter_cons_of_pos (by simpa using hav)] at h; simp at h
    | false =>
      rw [List.filter_cons_of_neg (by simpa using hav)] at h
      simp only [allPathLoop, hav]
      simpa using ih c s h

theorem allPathLoop_one (st : Store)
    (rec : Cache → String → Option String →
      Except PyErr (List String) × Cache × List Stmt)
    (p : NodeRow) (s : String) (out : List String)
    (hrec : ∀ c : Cache, CoherentId st c →
      ∃ c2 t2, rec c p.id (some s) = (.ok out, c2, t2) ∧ CoherentId st c2) :
    ∀ (rows : List NodeRow) (c : Cache),
      rows.filter (fun r => r.status == "AVAILABLE") = [p] →
      CoherentId st c →
      ∃ c2 t2, allPathLoop rec c s rows = (.ok out, c2, t2)
        ∧ CoherentId st c2 := by
  intro rows
  induction rows with
  | nil => intro c h _; simp at h
  | cons row rest ih =>
    intro c h hc
    cases hav : row.status == "AVAILABLE" with
    | false =>
      rw [List.filter_cons_of_neg (by simpa using hav)] at h
      simp only [allPathLoop, hav]
      simpa using ih c h hc
    | true =>
      rw [List.filter_cons_of_pos (by simpa using hav)] at h
      have hrow : row = p := (List.cons.injEq _ _ _ _).mp h |>.1
      have hrest : rest.filter (fun r => r.status == "AVAILABLE") = [] :=
        (List.cons.injEq _ _ _ _).mp h |>.2
      subst hrow
      obtain ⟨c2, t2, hr, hc2⟩ := hrec c hc
      have hnil := allPathLoop_filter_nil rec rest c2 s hrest
      refine ⟨c2, t2 ++ [], ?_, hc2⟩
      simp [allPathLoop, hav, hr, hnil]

theorem allPathLoop_two (st : Store)
    (rec : Cache → String → Option String →
      Except PyErr (List String) × Cache × List Stmt)
    (pa pb : NodeRow) (s : String) (outA outB : List String)
    (hrecA : ∀ c : Cache, CoherentId st c →
      ∃ c2 t2, rec c pa.id (some s) = (.ok outA, c2, t2) ∧ CoherentId st c2)
    (hrecB : ∀ c : Cache, CoherentId st c →
      ∃ c2 t2, rec c pb.id (some s) = (.ok outB, c2, t2) ∧ CoherentId st c2) :
    ∀ (rows : List NodeRow) (c : Cache),
      rows.filter (fun r => r.status == "AVAILABLE") = [pa, pb] →
      CoherentId st c →
      ∃ c2 t2, allPathLoop rec c s rows = (.ok (outA ++ outB), c2, t2)
        ∧ CoherentId st c2 := by
  intro rows
  induction rows with
  | nil => intro c h _; simp at h
  | cons row rest ih =>
    intro c h hc
    cases hav : row.status == "AVAILABLE" with
    | false =>
      rw [List.filter_cons_of_neg (by simpa using hav)] at h
      simp only [allPathLoop, hav]
      simpa using ih c h hc
    | true =>
      rw [List.filter_cons_of_pos (by simpa using hav)] at h
      have hrow : row = pa := (List.cons.injEq _ _ _ _).mp h |>.1
      have hrest : rest.filter (fun r => r.status == "AVAILABLE") = [pb] :=
        (List.cons.injEq _ _ _ _).mp h |>.2
      subst hrow
      obtain ⟨c2, t2, hr, hc2⟩ := hrecA c hc
      obtain ⟨c3, t3, hr2, hc3⟩ :=
        allPathLoop_one st rec pb s outB hrecB rest c2 hrest hc2
      refine ⟨c3, t2 ++ t3, ?_, hc3⟩
      simp [allPathLoop, hav, hr, hr2]

/-- Characterisation of `all_path` on a unique available ancestry:
for any suffix that does not begin with '/', the call yields the single
path `"/" ++ dir ++ suffix` and keeps the cache coherent. -/
theorem all_pathF_sole (st : Store) (nid dir : String) (k : Nat)
    (h : SolePath st nid dir k) :
    ∀ (fuel : Nat), k + 1 ≤ fuel →
      ∀ (c : Cache) (s : String), CoherentId st c →
        s.data.head? ≠ some '/' →
        ∃ c2 t2, all_pathF fuel st c nid (some s)
            = (.ok ["/" ++ dir ++ s], c2, t2) ∧ CoherentId st c2 := by
  induction h with
  | root =>
    intro fuel hf c s hc _
    match fuel, hf with
    | f + 1, _ =>
    refine ⟨c, [], ?_, hc⟩
    simp [all_pathF, String.empty_append]
  | step nid2 n p dir2 k2 hnr hsn hseg hpar hsp ih =>
    intro fuel hf c s hc hs
    match fuel, hf with
    | f + 1, hf =>
    obtain ⟨hgfst, hgco⟩ := get_node_coherent st c nid2 hc
    cases hg : get_node st c nid2 with
    | mk r rest =>
      rw [hg] at hgfst hgco
      have hgfst2 : r = storeNode st nid2 := by simpa using hgfst
      have hr : r = some n := by rw [hgfst2, hsn]
      subst hr
      have hjoin : pyJoin n.name s = n.name ++ "/" ++ s :=
        pyJoin_seg _ _ hseg hs
      have hs1 : (n.name ++ "/" ++ s).data.head? ≠ some '/' :=
        seg_append_head _ _ hseg.1 hseg.2.1
      obtain ⟨c2, t2, hl, hc2⟩ :=
        allPathLoop_one st (fun cc id sfx => all_pathF f st cc id sfx)
          p (n.name ++ "/" ++ s) ["/" ++ dir2 ++ (n.name ++ "/" ++ s)]
          (fun cc hcc => ih f (by omega) cc (n.name ++ "/" ++ s) hcc hs1)
          (parentsQuery st nid2) rest.1 hpar hgco
      refine ⟨c2, rest.2 ++ [Stmt.parentsQ] ++ t2, ?_, hc2⟩
      have hnr2 : (nid2 == st.root_id) = false := by simpa using hnr
      simp only [String.append_assoc] at hl hjoin
      simp [all_pathF, hnr2, hg, hjoin, hl, String.append_assoc]

/-! Claim theorems. -/

/-- C1 counterexample: from the empty cache, `resolve("/x", trash=True)`
on a store whose only child of the root is a unique trashed node caches
that TRASH node in the id map (so not every id-cached node is
AVAILABLE) and inserts "/x" into the path map (so a trash-mode resolve
does populate the path cache) - both parts of the claim fail on this
reachable cache state. -/
theorem cache_availability_cex :
    idCacheAvail (resolve store1 cacheEmpty "/x" true).2.1 = false
    ∧ lookupS (resolve store1 cacheEmpty "/x" true).2.1.path_to_node_id_cache "/x"
        = some "idX1" := ⟨rfl, rfl⟩

/-- C1 amended: the id-map availability policy holds for `get_node` and
`list_children` unconditionally, and for `resolve` in normal
(`include_trash=false`) mode provided the store's root row is
available; `resolve` with `include_trash=true` may cache a trashed node
in both maps (see the counterexample). -/
theorem cache_availability_policy :
    (∀ (st : Store) (c : Cache) (id : String), idCacheAvail c = true →
      idCacheAvail (get_node st c id).2.1 = true)
    ∧ (∀ (st : Store) (c : Cache) (fid : String) (trash : Bool)
        (fp : Option String), idCacheAvail c = true →
        idCacheAvail (list_children st c fid trash fp).2.1 = true)
    ∧ (∀ (st : Store) (c : Cache) (p : String), rootAvail st = true →
        idCacheAvail c = true →
        idCacheAvail (resolve st c p false).2.1 = true) :=
  ⟨get_node_idAvail, list_children_idAvail,
   fun st c p hra hc => resolveF_idAvail (p.length + 1) st c p hra hc⟩

/-- C1 witness: the amended policy applied to `resolve("/x")` in normal
mode on the concrete store, from the empty cache. -/
theorem cache_availability_policy_witness :
    rootAvail store1 = true ∧ idCacheAvail cacheEmpty = true
    ∧ idCacheAvail (resolve store1 cacheEmpty "/x" false).2.1 = true :=
  ⟨rfl, rfl, cache_availability_policy.2.2 store1 cacheEmpty "/x" rfl rfl⟩

/-- C2 counterexample: the claim quantifies over every cache state, but
after the reachable trash-mode resolution of "/x" the path cache maps
"/x" to the trashed node, and `resolve("/x", include_trash=false)`
returns that trashed node instead of absent. -/
theorem trash_visibility_cex :
    (resolve store1 (resolve store1 cacheEmpty "/x" true).2.1 "/x" false).1
      = .ok (some (mkNode rowX1 none)) := rfl

/-- C2 amended: trash visibility holds for every cache state whose path
map has no entry for P and through which the parent path resolves (in
both modes) to the parent: with a unique non-available child row named
`name` under the parent, `resolve(P, false)` returns absent and
`resolve(P, true)` returns that node. -/
theorem resolve_trash_visibility (st : Store) (c : Cache)
    (P parentPath name : String) (parent : Node) (cf ct : Cache)
    (tf tg : List Stmt) (row : NodeRow)
    (hsplit : pySplit P = (parentPath, name)) (hname : name ≠ "")
    (hmiss : lookupS c.path_to_node_id_cache P = none)
    (hpf : resolve st c parentPath false = (.ok (some parent), cf, tf))
    (hpt : resolve st c parentPath true = (.ok (some parent), ct, tg))
    (hchild : childOfQuery st name parent.id = [row])
    (htrash : row.status ≠ "AVAILABLE") :
    (resolve st c P false).1 = .ok none
    ∧ (resolve st c P true).1
        = .ok (some (mkNode row (fileRowFor st row.id))) := by
  have h1 : (pySplit P).1 = parentPath := by rw [hsplit]
  have h2 : (pySplit P).2 = name := by rw [hsplit]
  have hn2 : (pySplit P).2 ≠ "" := by rw [h2]; exact hname
  have havail : (mkNode row (fileRowFor st row.id)).is_available = false := by
    simp only [Node.is_available, mkNode]
    simpa using htrash
  constructor
  · have hb := resolve_child_branch st c P false parent cf tf hmiss hn2
      (by rw [h1]; exact hpf)
    rw [h2, hchild] at hb
    rw [hb]
    simp [havail]
  · have hb := resolve_child_branch st c P true parent ct tg hmiss hn2
      (by rw [h1]; exact hpt)
    rw [h2, hchild] at hb
    rw [hb]
    simp [havail]

/-- C2 witness: on the concrete store, from the empty cache, "/x" is
invisible normally and visible in trash mode. -/
theorem resolve_trash_visibility_witness :
    (resolve store1 cacheEmpty "/x" false).1 = .ok none
    ∧ (resolve store1 cacheEmpty "/x" true).1
        = .ok (some (mkNode rowX1 (fileRowFor store1 "idX1"))) :=
  resolve_trash_visibility store1 cacheEmpty "/x" "/" "x"
    (mkNode rootRow none) _ _ _ _ rowX1 rfl (by decide) rfl rfl rfl rfl
    (by decide)

/-- C4 counterexample: the ambiguous trash-mode resolve does return
absent, but it does not leave the cache unchanged - resolving the
parent path caches the root on the way. -/
theorem ambiguity_cache_cex :
    (resolve store2 cacheEmpty "/x" true).1 = .ok none
    ∧ (resolve store2 cacheEmpty "/x" true).2.1 ≠ cacheEmpty :=
  ⟨rfl, by decide⟩

/-- C4 amended: with at least two same-named rows under the parent and
no available one among them, trash-mode resolve returns absent and
leaves the cache exactly as the recursive resolution of the parent path
left it - no entry for the queried path or the ambiguous siblings is
added. -/
theorem resolve_ambiguous_trash (st : Store) (c : Cache)
    (P parentPath name : String) (parent : Node) (c1 : Cache)
    (t1 : List Stmt) (rows : List NodeRow)
    (hsplit : pySplit P = (parentPath, name)) (hname : name ≠ "")
    (hmiss : lookupS c.path_to_node_id_cache P = none)
    (hpar : resolve st c parentPath true = (.ok (some parent), c1, t1))
    (hchild : childOfQuery st name parent.id = rows)
    (hlen : 2 ≤ rows.length)
    (hno : ∀ r ∈ rows, r.status ≠ "AVAILABLE") :
    resolve st c P true = (.ok none, c1, t1 ++ [Stmt.childOf]) := by
  have h1 : (pySplit P).1 = parentPath := by rw [hsplit]
  have h2 : (pySplit P).2 = name := by rw [hsplit]
  have hn2 : (pySplit P).2 ≠ "" := by rw [h2]; exact hname
  have hb := resolve_child_branch st c P true parent c1 t1 hmiss hn2
    (by rw [h1]; exact hpar)
  rw [h2, hchild] at hb
  cases rows with
  | nil => simp at hlen
  | cons r0 rest =>
    cases rest with
    | nil => simp at hlen
    | cons r1 rest2 =>
      have hav0 : (mkNode r0 (fileRowFor st r0.id)).is_available = false := by
        simp only [Node.is_available, mkNode]
        simpa using hno r0 (by simp)
      rw [hb]
      simp [hav0]

/-- C4 witness: two trashed children named "x" under the root; the
trash-mode resolve of "/x" returns absent and the cache stays exactly
the post-parent-resolution cache. -/
theorem resolve_ambiguous_trash_witness :
    resolve store2 cacheEmpty "/x" true
      = (.ok none, (resolve store2 cacheEmpty "/" true).2.1,
         (resolve store2 cacheEmpty "/" true).2.2 ++ [Stmt.childOf]) :=
  resolve_ambiguous_trash store2 cacheEmpty "/x" "/" "x"
    (mkNode rootRow none) _ _ [rowX1, rowX2] rfl (by decide) rfl rfl rfl
    (by decide) (by decide)

/-- C3 counterexample: for file `b` inside folder `a` under the root,
`first_path` returns "/a/" - the slash-terminated path of the node's
first parent - and not a root-to-node path such as "/a/b". -/
theorem first_path_cex :
    (first_pathF 3 store3 "idB").1 = .ok "/a/" ∧ "/a/" ≠ "/a/b" :=
  ⟨rfl, by decide⟩

/-- C3 amended: `first_path(node_id)` deterministically follows the
first row of `FIND_FIRST_PARENT_SQL` (ordered by status then id, so
available parents sort before removed ones) up to the root and returns
the slash-terminated directory string of that first-parent chain - the
path of the node's containing folder, not a path ending in the node's
own name; every sufficient fuel (recursion budget) gives the same
result. -/
theorem first_path_first_parent_chain (st : Store) (nid s : String)
    (k : Nat) (h : FPChain st nid s k) (hnr : nid ≠ st.root_id)
    (fuel : Nat) (hf : k + 1 ≤ fuel) :
    (first_pathF fuel st nid).1 = .ok s :=
  first_pathF_chain st nid s k h hnr fuel hf

/-- C3 witness: the chain for file `b` (first parent `a`, whose first
parent is the root) evaluates to "/a/". -/
theorem first_path_first_parent_chain_witness :
    (first_pathF 5 store3 "idB").1 = .ok "/a/" :=
  first_path_first_parent_chain store3 "idB"
    ((mkNode rootRow none).simple_name ++ rowA.name ++ "/") 1
    (FPChain.step "idB" rowA [] (mkNode rootRow none).simple_name 0 rfl
      (by decide) (FPChain.base "idA" rootRow [] rfl rfl))
    (by decide) 5 (by omega)

/-- C5 counterexample: two distinct `Node` objects (addresses 0 and 1)
built from the same row have equal ids, yet Python `==` - which is
object identity because the class defines no `__eq__` - yields False,
so "a equals b iff a.id equals b.id" fails. -/
theorem node_identity_cex :
    (nodeHeap 0).id = (nodeHeap 1).id ∧ pyNodeEq 0 1 = false :=
  ⟨rfl, rfl⟩

/-- C5 amended: `Node` equality is Python's default object identity
(the class defines `__hash__` and `__lt__` but no `__eq__`), so equal
objects are the same object; `hash` is `hash(self.id)`, so any two
objects with equal ids hash identically, and the name plays no part in
either equality or hashing. -/
theorem node_identity_hash :
    (∀ a b : Nat, pyNodeEq a b = true → a = b)
    ∧ (∀ (heap : Nat → Node) (a b : Nat), pyNodeEq a b = true →
        pyNodeHash heap a = pyNodeHash heap b)
    ∧ (∀ (heap : Nat → Node) (a b : Nat), (heap a).id = (heap b).id →
        pyNodeHash heap a = pyNodeHash heap b) := by
  refine ⟨fun a b h => by simpa [pyNodeEq] using h, fun heap a b h => ?_, ?_⟩
  · have : a = b := by simpa [pyNodeEq] using h
    rw [this]
  · intro heap a b h
    simpa [pyNodeHash] using h

/-- C5 witness: the hash of two same-id objects agrees. -/
theorem node_identity_hash_witness :
    (nodeHeap 0).id = (nodeHeap 1).id
    ∧ pyNodeHash nodeHeap 0 = pyNodeHash nodeHeap 1 :=
  ⟨rfl, node_identity_hash.2.2 nodeHeap 0 1 rfl⟩

/-- C6 (round trip): when the path is not cached, the parent path
resolves to the parent, and the first `CHILD_OF_SQL` row for the leaf
name is available, `resolve(P)` returns exactly that node and installs
it in both maps; a second `resolve(P)` is a pure cache hit - it returns
the identical node, leaves the cache unchanged and executes no store
statement at all (in particular no child-by-name query). -/
theorem resolve_round_trip (st : Store) (c : Cache)
    (P parentPath name : String) (parent : Node) (c1 : Cache)
    (t1 : List Stmt) (row : NodeRow) (rest : List NodeRow)
    (hsplit : pySplit P = (parentPath, name)) (hname : name ≠ "")
    (hmiss : lookupS c.path_to_node_id_cache P = none)
    (hpar : resolve st c parentPath false = (.ok (some parent), c1, t1))
    (hchild : childOfQuery st name parent.id = row :: rest)
    (havail : row.status = "AVAILABLE") :
    resolve st c P false
        = (.ok (some (mkNode row (fileRowFor st row.id))),
           insertBoth c1 P (mkNode row (fileRowFor st row.id)),
           t1 ++ [Stmt.childOf])
    ∧ resolve st (insertBoth c1 P (mkNode row (fileRowFor st row.id))) P false
        = (.ok (some (mkNode row (fileRowFor st row.id))),
           insertBoth c1 P (mkNode row (fileRowFor st row.id)), []) := by
  have h1 : (pySplit P).1 = parentPath := by rw [hsplit]
  have h2 : (pySplit P).2 = name := by rw [hsplit]
  have hn2 : (pySplit P).2 ≠ "" := by rw [h2]; exact hname
  have hav : (mkNode row (fileRowFor st row.id)).is_available = true := by
    simp [Node.is_available, mkNode, havail]
  constructor
  · have hb := resolve_child_branch st c P false parent c1 t1 hmiss hn2
      (by rw [h1]; exact hpar)
    rw [h2, hchild] at hb
    rw [hb]
    simp [hav]
  · have hpc : lookupS
        ((insertBoth c1 P (mkNode row (fileRowFor st row.id))).path_to_node_id_cache)
        P = some (mkNode row (fileRowFor st row.id)).id :=
      lookupS_insert_self c1.path_to_node_id_cache P
        (mkNode row (fileRowFor st row.id)).id
    have hhit := resolve_cache_hit st
      (insertBoth c1 P (mkNode row (fileRowFor st row.id))) P false
      (mkNode row (fileRowFor st row.id)).id hpc
    rw [hhit]
    have hid : lookupS
        ((insertBoth c1 P (mkNode row (fileRowFor st row.id))).node_id_to_node_cache)
        (mkNode row (fileRowFor st row.id)).id
        = some (mkNode row (fileRowFor st row.id)) :=
      lookupS_insert_self c1.node_id_to_node_cache
        (mkNode row (fileRowFor st row.id)).id (mkNode row (fileRowFor st row.id))
    simp [get_node, hid]

/-- C6 witness: resolving "/a/b" on the concrete store finds file `b`,
and the second call is a pure cache hit with an empty trace. -/
theorem resolve_round_trip_witness :
    resolve store3 cacheEmpty "/a/b" false
        = (.ok (some (mkNode rowB (fileRowFor store3 rowB.id))),
           insertBoth (resolve store3 cacheEmpty "/a" false).2.1 "/a/b"
             (mkNode rowB (fileRowFor store3 rowB.id)),
           (resolve store3 cacheEmpty "/a" false).2.2 ++ [Stmt.childOf])
    ∧ resolve store3
          (insertBoth (resolve store3 cacheEmpty "/a" false).2.1 "/a/b"
            (mkNode rowB (fileRowFor store3 rowB.id))) "/a/b" false
        = (.ok (some (mkNode rowB (fileRowFor store3 rowB.id))),
           insertBoth (resolve store3 cacheEmpty "/a" false).2.1 "/a/b"
             (mkNode rowB (fileRowFor store3 rowB.id)), []) :=
  resolve_round_trip store3 cacheEmpty "/a/b" "/a" "b" (mkNode rowA none)
    _ _ rowB [] rfl (by decide) rfl rfl rfl rfl

/-- C7 counterexample: with the configured root absent from the store,
`resolve("/")` does not return an empty result - `r.id` on `None`
raises an `AttributeError`. -/
theorem absence_missing_root_cex :
    (resolve store0 cacheEmpty "/" false).1 = .error .attributeError := rfl

/-- C7 amended: every listed operation signals a missing item with an
explicit `None`, and `resolve`/`resolve_id` never raise provided the
store holds a row for the configured root id; when it does not, a
resolve of a path with an empty leaf name raises `AttributeError` (see
the counterexample). -/
theorem absence_returns_none :
    (∀ (st : Store) (c : Cache) (p : String) (trash : Bool),
      rootPresent st = true → ∀ e, (resolve st c p trash).1 ≠ .error e)
    ∧ (∀ (st : Store) (c : Cache) (p : String) (trash : Bool),
        rootPresent st = true → ∀ e, (resolve_id st c p trash).1 ≠ .error e)
    ∧ (∀ (st : Store) (c : Cache) (id : String),
        lookupS c.node_id_to_node_cache id = none → storeNode st id = none →
        (get_node st c id).1 = none)
    ∧ (∀ (st : Store) (fid name : String),
        childOfQuery st name fid = [] → (get_child st fid name).1 = none)
    ∧ (∀ (st : Store) (name pid : String),
        conflictingNodeQuery st name.toLower pid = [] →
        (get_conflicting_node st name pid).1 = none)
    ∧ (∀ (st : Store) (nid oid key : String),
        (st.properties.find? fun p =>
          p.id == nid && p.owner == oid && p.key == key) = none →
        (get_property st nid oid key).1 = none)
    ∧ (∀ (st : Store) (nid : String) (v : Nat),
        (st.content.find? fun r => r.id == nid && r.version == v) = none →
        (get_content st nid v).1 = none) := by
  refine ⟨?_, ?_, ?_, ?_, ?_, ?_, ?_⟩
  · intro st c p trash hp e he
    obtain ⟨r, hr⟩ := resolveF_ok (p.length + 1) st c p trash
      (Nat.lt_succ_self _) hp
    have : (resolve st c p trash).1 = .ok r := hr
    rw [this] at he
    cases he
  · intro st c p trash hp e he
    obtain ⟨r, hr⟩ := resolveF_ok (p.length + 1) st c p trash
      (Nat.lt_succ_self _) hp
    have hr2 : (resolve st c p trash).1 = .ok r := hr
    cases hres : resolve st c p trash with
    | mk res rest =>
      rw [hres] at hr2
      simp only at hr2
      subst hr2
      rw [show (resolve_id st c p trash).1
          = .ok (r.map (fun n => n.id)) from by simp [resolve_id, hres]] at he
      cases he
  · intro st c id h1 h2
    simp [get_node, h1, h2]
  · intro st fid name h
    simp [get_child, h]
  · intro st name pid h
    simp [get_conflicting_node, h]
  · intro st nid oid key h
    simp [get_property, h]
  · intro st nid v h
    by_cases hv : v = 0
    · simp [get_content, hv]
    · simp [get_content, hv, h]

/-- C7 witness: a missing path on a store with a root resolves to an
explicit result and raises nothing. -/
theorem absence_returns_none_witness :
    rootPresent store1 = true
    ∧ (resolve store1 cacheEmpty "/nope" false).1 ≠ .error .attributeError :=
  ⟨rfl, absence_returns_none.1 store1 cacheEmpty "/nope" false rfl
    .attributeError⟩

/-- C8 (multi-parent completeness): for a non-root node with exactly
two available parents A and B (in query order), each reachable from the
root by exactly one available path, `all_path` returns exactly the two
full root-to-node paths, one through A and one through B; non-available
parent rows are skipped by the loop. -/
theorem all_path_two_parents (st : Store) (c : Cache) (nid : String)
    (n : Node) (pa pb : NodeRow) (dirA dirB : String) (kA kB : Nat)
    (fuel : Nat)
    (hc : CoherentId st c)
    (hnr : nid ≠ st.root_id)
    (hsn : storeNode st nid = some n)
    (hseg : SegName n.name)
    (hpar : (parentsQuery st nid).filter (fun r => r.status == "AVAILABLE")
      = [pa, pb])
    (hA : SolePath st pa.id dirA kA) (hB : SolePath st pb.id dirB kB)
    (hfA : kA + 2 ≤ fuel) (hfB : kB + 2 ≤ fuel) :
    (all_pathF fuel st c nid none).1
      = .ok ["/" ++ dirA ++ n.name, "/" ++ dirB ++ n.name] := by
  match fuel, hfA, hfB with
  | f + 1, hfA, hfB =>
  obtain ⟨hgfst, hgco⟩ := get_node_coherent st c nid hc
  cases hg : get_node st c nid with
  | mk r rest =>
    rw [hg] at hgfst hgco
    have hgfst2 : r = storeNode st nid := by simpa using hgfst
    have hr : r = some n := by rw [hgfst2, hsn]
    subst hr
    have hsA : n.name.data.head? ≠ some '/' := hseg.2.1
    obtain ⟨c2, t2, hl, hc2⟩ :=
      allPathLoop_two st (fun cc id sfx => all_pathF f st cc id sfx)
        pa pb n.name ["/" ++ dirA ++ n.name] ["/" ++ dirB ++ n.name]
        (fun cc hcc => all_pathF_sole st pa.id dirA kA hA f (by omega) cc
          n.name hcc hsA)
        (fun cc hcc => all_pathF_sole st pb.id dirB kB hB f (by omega) cc
          n.name hcc hsA)
        (parentsQuery st nid) rest.1 hpar hgco
    have hnr2 : (nid == st.root_id) = false := by simpa using hnr
    simp [all_pathF, hnr2, hg, hl]

/-- C8 witness: file `c` with available parents `pa` and `pb`, both
children of the root, yields exactly "/pa/c" and "/pb/c". -/
theorem all_path_two_parents_witness :
    (all_pathF 3 store4 cacheEmpty "idC" none).1 = .ok ["/pa/c", "/pb/c"] :=
  all_path_two_parents store4 cacheEmpty "idC" (mkNode rowC none)
    rowPA rowPB ("" ++ rowPA.name ++ "/") ("" ++ rowPB.name ++ "/") 1 1 3
    (fun id n h => by simp [lookupS, cacheEmpty] at h)
    (by decide) rfl ⟨by decide, by decide, by decide⟩ rfl
    (SolePath.step "idPA" (mkNode rowPA none) rootRow "" 0 (by decide) rfl
      ⟨by decide, by decide, by decide⟩ rfl SolePath.root)
    (SolePath.step "idPB" (mkNode rowPB none) rootRow "" 0 (by decide) rfl
      ⟨by decide, by decide, by decide⟩ rfl SolePath.root)
    (by omega) (by omega)

/-- C9 (read-only query surface): every operation of the query mixin
only ever executes SELECT statements - the trace of each operation, on
every store, cache and argument, contains no write (the only write
statement of the module, `CONTENT_ACCESSED_SQL`, is commented out in
`get_content` and is never emitted). -/
theorem query_surface_read_only :
    (∀ (st : Store) (c : Cache) (id : String),
      noWrites (get_node st c id).2.2 = true)
    ∧ (∀ (st : Store) (c : Cache), noWrites (get_root_node st c).2.2 = true)
    ∧ (∀ (st : Store) (name pid : String),
        noWrites (get_conflicting_node st name pid).2 = true)
    ∧ (∀ (st : Store) (c : Cache) (p : String) (trash : Bool),
        noWrites (resolve st c p trash).2.2 = true)
    ∧ (∀ (st : Store) (c : Cache) (p : String) (trash : Bool),
        noWrites (resolve_id st c p trash).2.2 = true)
    ∧ (∀ (st : Store) (fid : String),
        noWrites (childrens_names st fid).2 = true)
    ∧ (∀ st : Store, noWrites (get_node_count st).2 = true)
    ∧ (∀ st : Store, noWrites (get_folder_count st).2 = true)
    ∧ (∀ st : Store, noWrites (get_file_count st).2 = true)
    ∧ (∀ st : Store, noWrites (calculate_usage st).2 = true)
    ∧ (∀ (st : Store) (fid : String), noWrites (num_children st fid).2 = true)
    ∧ (∀ (st : Store) (nid : String), noWrites (num_parents st nid).2 = true)
    ∧ (∀ (st : Store) (fid name : String),
        noWrites (get_child st fid name).2 = true)
    ∧ (∀ (st : Store) (c : Cache) (fid : String) (trash : Bool)
        (fp : Option String),
        noWrites (list_children st c fid trash fp).2.2 = true)
    ∧ (∀ (st : Store) (c : Cache) (fid : String),
        noWrites (list_trashed_children st c fid).2.2 = true)
    ∧ (∀ (fuel : Nat) (st : Store) (nid : String),
        noWrites (first_pathF fuel st nid).2 = true)
    ∧ (∀ (fuel : Nat) (st : Store) (c : Cache) (nid : String)
        (sfx : Option String),
        noWrites (all_pathF fuel st c nid sfx).2.2 = true)
    ∧ (∀ (st : Store) (name : String), noWrites (find_by_name st name).2 = true)
    ∧ (∀ (st : Store) (md5 : String), noWrites (find_by_md5 st md5).2 = true)
    ∧ (∀ (st : Store) (isMatch : String → Bool),
        noWrites (find_by_regex st isMatch).2 = true)
    ∧ (∀ (st : Store) (size : Nat), noWrites (file_size_exists st size).2 = true)
    ∧ (∀ (st : Store) (nid oid key : String),
        noWrites (get_property st nid oid key).2 = true)
    ∧ (∀ (st : Store) (nid : String) (v : Nat),
        noWrites (get_content st nid v).2 = true) := by
  refine ⟨get_node_noWrites, fun st c => get_node_noWrites st c st.root_id,
    fun st name pid => rfl,
    fun st c p trash => resolveF_noWrites (p.length + 1) st c p trash,
    ?_, fun st fid => rfl, fun st => rfl, fun st => rfl, fun st => rfl,
    fun st => rfl, fun st fid => rfl, fun st nid => rfl, ?_,
    fun st c fid trash fp => rfl, ?_, first_pathF_noWrites,
    all_pathF_noWrites, fun st name => rfl, fun st md5 => rfl,
    fun st isMatch => rfl, fun st size => rfl, fun st nid oid key => rfl, ?_⟩
  · intro st c p trash
    have h := resolveF_noWrites (p.length + 1) st c p trash
    cases hres : resolve st c p trash with
    | mk res rest =>
      have hr : noWrites rest.2 = true := by
        have : noWrites (resolve st c p trash).2.2 = true := h
        rw [hres] at this
        exact this
      cases res with
      | error e => simpa [resolve_id, hres] using hr
      | ok r => simpa [resolve_id, hres] using hr
  · intro st fid name
    unfold get_child
    cases h : (childOfQuery st name fid).head? with
    | none => rfl
    | some row => rfl
  · intro st c fid
    unfold list_trashed_children
    cases hl : list_children st c fid true none with
    | mk a rest =>
      cases a with
      | mk folders files =>
        have h14 : noWrites (list_children st c fid true none).2.2 = true := rfl
        rw [hl] at h14
        simpa using h14
  · intro st nid v
    by_cases hv : v = 0
    · simp [get_content, hv, noWrites]
    · simp [get_content, hv, noWrites, isWrite]

/-- C10 (all_path at the root): calling `all_path(root_id)` with no
path suffix does not return `["/"]`; `"/" + None` raises a `TypeError`
before any store access, for every store and cache. -/
theorem all_path_root_no_suffix (st : Store) (c : Cache) (fuel : Nat)
    (hf : 1 ≤ fuel) :
    all_pathF fuel st c st.root_id none = (.error .typeError, c, []) := by
  match fuel, hf with
  | f + 1, _ => simp [all_pathF]

/-- C10 witness: the concrete store's root raises the modelled
`TypeError`. -/
theorem all_path_root_no_suffix_witness :
    all_pathF 1 store4 cacheEmpty "root" none
      = (.error .typeError, cacheEmpty, []) :=
  all_path_root_no_suffix store4 cacheEmpty 1 (by decide)

end Acd
